import Mathlib

/-!
Shallow embedding of the attribute-inference black-box attack
(`art/attacks/inference/attribute_inference/black_box.py`) and of the
TensorFlow Cutout defence (`art/defences/preprocessor/cutout/cutout_tensorflow.py`).

Numeric values are embedded as exact rationals (the float32 casts of the
source are dropped: the claims under study concern the structure of the
pipelines, not rounding).  Randomness (`tf.random.uniform`) is embedded as an
explicit list of sampled centres, one per image.  The wrapped ML libraries
(numpy, sklearn, torch, tensorflow) are modelled from their documented
semantics; the attack model itself is an opaque row function supplied as an
argument, since training it is owned by torch/sklearn.
-/

namespace ART

/-- A matrix is a list of rows. -/
abbrev Mat := List (List ℚ)

deriving instance DecidableEq for Except

/-- The `np.argmax` of a list: the first index attaining the maximum of the list (0 on `[]`). -/
def argmaxIdx : List ℚ → ℕ
  | [] => 0
  | [_] => 0
  | a :: b :: r =>
    let j := argmaxIdx (b :: r)
    if a < (b :: r).getD j 0 then j + 1 else 0

/-- One-hot row of length `n` with the (single) 1 at index `j`. -/
def oneHot : ℕ → ℕ → List ℚ
  | 0, _ => []
  | n + 1, 0 => 1 :: List.replicate n 0
  | n + 1, j + 1 => 0 :: oneHot n j

/-! ## Cutout (TensorFlow) -/

/-- A TensorFlow tensor: a shape together with row-major flat data. -/
structure TFTensor where
  shape : List ℕ
  data : List ℚ
deriving DecidableEq

/-- Value of the Cutout mask (lines 102-119 of `cutout_tensorflow.py`) at flat
position `p` of a tensor of shape `[n, d1, d2, d3]`.  `centers` holds, per
sample, the pair (`center_y`, `center_x`) drawn by `tf.random.uniform` with
`maxval` `height` resp. `width`.  Per the source, the slice bounds `bbx1:bbx2`
(computed from `center_x` and clipped to `[0, width]`) are applied to the
height axis and `bby1:bby2` (from `center_y`, clipped to `[0, height]`) to the
width axis; slicing itself clamps to the actual dimension, which the
`q1 < d`-implicit bound of the flat decoding reproduces. -/
def cutoutMaskVal (channels_first : Bool) (length : ℕ) (centers : List (ℕ × ℕ))
    (n d1 d2 d3 : ℕ) (p : ℕ) : ℚ :=
  let i := p / (d1 * d2 * d3)
  let a := p % (d1 * d2 * d3) / (d2 * d3)
  let b := p % (d2 * d3) / d3
  let c := p % d3
  let height := if channels_first then d2 else d1
  let width := if channels_first then d3 else d2
  let cy := (centers.getD i (0, 0)).1
  let cx := (centers.getD i (0, 0)).2
  let l2 := length / 2
  let bby1 := min (cy - l2) height
  let bby2 := min (cy + l2) height
  let bbx1 := min (cx - l2) width
  let bbx2 := min (cx + l2) width
  let q1 := if channels_first then b else a
  let q2 := if channels_first then c else b
  if i < n ∧ bbx1 ≤ q1 ∧ q1 < bbx2 ∧ bby1 ≤ q2 ∧ q2 < bby2 then 0 else 1

/-- Embedding of `CutoutTensorFlowV2.forward` (lines 79-123).  4-D inputs are multiplied
elementwise by the mask; any other rank raises `ValueError`. -/
def cutoutForward (channels_first : Bool) (length : ℕ) (centers : List (ℕ × ℕ))
    (x : TFTensor) (y : Option (List ℚ)) : Except String (TFTensor × Option (List ℚ)) :=
  match x.shape with
  | [n, d1, d2, d3] =>
    .ok (⟨x.shape, (x.data.enum).map
      (fun q => q.2 * cutoutMaskVal channels_first length centers n d1 d2 d3 q.1)⟩, y)
  | _ => .error "Unrecognized input dimension. Cutout can only be applied to image data."

/-- The cut-out region claim C6 describes: the square of side at most `length`
centred at the sampled position (`cy`, `cx`), clipped at the image borders;
`(r, c)` is a (row, column) pixel position. -/
def claimedBox (length height width cy cx r c : ℕ) : Bool :=
  (cy - length / 2 ≤ r && r < min (cy + length / 2) height) &&
    (cx - length / 2 ≤ c && c < min (cx + length / 2) width)

/-- Concrete 1×2×5×1 (NHWC) image used to exhibit the swapped-axes behaviour. -/
def dataTen : List ℚ := [1, 2, 3, 4, 5, 6, 7, 8, 9, 10]

/-! ## Attribute inference black box: data model -/

/-- Whether the target estimator is a classifier or a regressor
(`ClassifierMixin in type(self.estimator).__mro__`). -/
inductive EstKind where
  | classifier
  | regressor
deriving DecidableEq

/-- The target estimator.  `predictC` (classifier) returns one score row per
input row; `predictR` (regressor) returns one value per input row.  Only the
field matching `kind` is ever consulted. -/
structure Estimator where
  kind : EstKind
  predictC : Mat → Mat
  predictR : Mat → List ℚ
  nb_classes : ℕ
  input_shape : Option ℕ

/-- The `attack_feature : Union[int, slice]` parameter. -/
inductive AttackFeature where
  | int (i : ℕ)
  | slice (start stop step : ℕ)
deriving DecidableEq

/-- The column indexes an attack feature designates: `[i]` for an int,
`range(start, stop, step)` for a slice. -/
def afIdxs : AttackFeature → List ℕ
  | .int i => [i]
  | .slice s t st => (List.range t).filter (fun j => s ≤ j && (j - s) % st == 0)

/-- Keep the entries of `r` whose (0-based, offset by `k`) column index is not
in `bad`. -/
def keepIdx (bad : List ℕ) : ℕ → List ℚ → List ℚ
  | _, [] => []
  | k, a :: r => if k ∈ bad then keepIdx bad (k + 1) r else a :: keepIdx bad (k + 1) r

/-- Numpy `np.delete(x, attack_feature, 1)` applied to one row: numpy removes the
single column for an int index, and the boolean-masked columns of
`range(start, stop, step)` for a slice. -/
def npDeleteRow (af : AttackFeature) (r : List ℚ) : List ℚ :=
  match af with
  | .int i => r.take i ++ r.drop (i + 1)
  | .slice _ _ _ => keepIdx (afIdxs af) 0 r

/-- Extraction `x[:, attack_feature]` applied to one row (multi-column form). -/
def extractRow (af : AttackFeature) (r : List ℚ) : List ℚ :=
  (afIdxs af).map (fun i => r.getD i 0)

/-- Numpy `np.unique` of a list: its distinct values in increasing order. -/
def sortedDedup (l : List ℚ) : List ℚ :=
  List.insertionSort (· ≤ ·) l.dedup

/-- Minimum of a list (0 on `[]`). -/
def listMin (l : List ℚ) : ℚ := l.foldr min (l.headD 0)

/-- Maximum of a list (0 on `[]`). -/
def listMax (l : List ℚ) : ℚ := l.foldr max (l.headD 0)

/-- Modelled from sklearn: `minmax_scale` on a single feature: rescale to the
range `ab`, guarding a constant feature by a unit scale as sklearn does. -/
def minmax_scale (ab : ℚ × ℚ) (l : List ℚ) : List ℚ :=
  let m := listMin l
  let d := listMax l - m
  let d := if d = 0 then 1 else d
  l.map (fun v => (v - m) / d * (ab.2 - ab.1) + ab.1)

/-- Column-wise `minmax_scale` of a 2-D array. -/
def minmaxMat (ab : ℚ × ℚ) (m : Mat) : Mat :=
  (m.transpose.map (minmax_scale ab)).transpose

/-- Python-style entry access `r[i]` with wrap-around for negative indexes. -/
def entryAt (r : List ℚ) (i : ℤ) : ℚ :=
  if 0 ≤ i then r.getD i.toNat 0 else r.getD (r.length - i.natAbs) 0

/-- Resolve a possibly negative Python column index against width `w`. -/
def selIdx (w : ℕ) (i : ℤ) : ℕ :=
  if 0 ≤ i then i.toNat else w - i.natAbs

/-- Column `i` of a matrix. -/
def colAt (m : Mat) (i : ℤ) : List ℚ := m.map (fun r => entryAt r i)

/-- An encoder for the remaining features: either one supplied by the user
(an opaque transformation) or the `ColumnTransformer(OrdinalEncoder, idxs,
remainder="passthrough")` built by `fit`, carrying the per-column sorted
category lists learned when it was fitted. -/
inductive Encoder where
  | user (f : Mat → Mat)
  | ct (idxs : List ℤ) (cats : List (List ℚ))

/-- One row through a fitted `ColumnTransformer(OrdinalEncoder, idxs,
remainder="passthrough")`: the ordinal codes of the selected columns come
first, the untouched remaining columns follow, as sklearn orders its output. -/
def encodeRow (idxs : List ℤ) (cats : List (List ℚ)) (r : List ℚ) : List ℚ :=
  (idxs.zip cats).map (fun p => ((p.2.indexOf (entryAt r p.1) : ℕ) : ℚ))
    ++ (r.enum.filter (fun q => !(idxs.map (selIdx r.length)).contains q.1)).map Prod.snd

/-- Apply an encoder (`self._encoder.transform`). -/
def Encoder.transform : Encoder → Mat → Mat
  | .user f, m => f m
  | .ct idxs cats, m => m.map (encodeRow idxs cats)

/-- Fit `ColumnTransformer(OrdinalEncoder, idxs, remainder="passthrough")` on
`m`: each selected column's categories are its sorted distinct values. -/
def ctFit (idxs : List ℤ) (m : Mat) : Encoder :=
  .ct idxs (idxs.map (fun i => sortedDedup (colAt m i)))

/-- Column-wise concatenation, `np.concatenate(_, axis=1)`. -/
def hcat (a b : Mat) : Mat := List.zipWith (· ++ ·) a b

/-- The `self._values` attribute: a plain list of feature values for a single-column
attacked feature, a list per column for a multi-column one. -/
inductive FeatureValues where
  | single (v : List ℚ)
  | multi (v : List (List ℚ))
deriving DecidableEq

/-- The `attack_model_type` in effect: `"nn"`, `"rf"`, or `None` (user-supplied model). -/
inductive AMType where
  | nn
  | rf
  | custom
deriving DecidableEq

/-- Modelled from the spec: `check_and_transform_label_format` (art.utils, not
under src/) brings class labels into one-hot form over `nb` classes; an index
label `v` becomes the one-hot row with the 1 at index `v`. -/
def toOneHotLabels (nb : ℕ) (ys : List ℚ) : Mat :=
  ys.map (fun v => oneHot nb v.num.toNat)

/-- Modelled from the spec: `get_feature_values` (art.utils, not under src/)
returns, for a single-column feature, the list of possible feature values
found in the data, in increasing order. -/
def get_feature_values_single (col : List ℚ) : List ℚ := sortedDedup col

/-- Modelled from the spec: `get_feature_values` (art.utils, not under src/)
for a multi-column feature returns one list of possible values per column. -/
def get_feature_values_multi (m : Mat) : List (List ℚ) :=
  m.transpose.map sortedDedup

/-- Modelled from the spec: `float_to_categorical` followed by
`check_and_transform_label_format` (art.utils, not under src/): each value of
the single attacked column is one-hot encoded by its rank among the column's
distinct values. -/
def float_to_categorical (col : List ℚ) : Mat :=
  let vals := sortedDedup col
  col.map (fun v => oneHot vals.length (vals.indexOf v))

/-- Modelled from the spec: `floats_to_one_hot` followed by
`check_and_transform_label_format` (art.utils, not under src/): each column of
the multi-column attacked feature is recoded by rank among that column's
distinct values. -/
def floats_to_one_hot (m : Mat) : Mat :=
  let valsT := m.transpose.map sortedDedup
  m.map (fun r => r.enum.map (fun q => (((valsT.getD q.1 []).indexOf q.2 : ℕ) : ℚ)))

/-- What `AttributeInferenceBlackBox.fit` hands to the attack model and stores
on `self`: the computed `self._values`, `self._encoder`, and the training pair
(`x_train`, `y_attack_ready`). -/
structure FitResult where
  values : Option FeatureValues
  encoder : Option Encoder
  trainX : Mat
  trainY : Mat

/-! ## `AttributeInferenceBlackBox.fit` (lines 207-315) -/

/-- Lines 222-233: the model's predictions for `x`, reshaped to a column —
the argmax class for a classifier; for a regressor the predicted value,
min-max scaled when `scale_range` is set, multiplied by
`prediction_normal_factor` otherwise. -/
def predColumn (est : Estimator) (scale_range : Option (ℚ × ℚ))
    (prediction_normal_factor : ℚ) (x : Mat) : Mat :=
  match est.kind with
  | .classifier => (est.predictC x).map (fun r => [((argmaxIdx r : ℕ) : ℚ)])
  | .regressor =>
    match scale_range with
    | some ab => (minmax_scale ab (est.predictR x)).map (fun v => [v])
    | none => (est.predictR x).map (fun v => [v * prediction_normal_factor])

/-- Lines 225-237: the transformed true-label block appended when `y` is
provided — one-hot over `nb_classes` for a classifier; scaled or
factor-multiplied and reshaped to a column for a regressor. -/
def yBlock (est : Estimator) (scale_range : Option (ℚ × ℚ))
    (prediction_normal_factor : ℚ) (ys : List ℚ) : Mat :=
  match est.kind with
  | .classifier => toOneHotLabels est.nb_classes ys
  | .regressor =>
    match scale_range with
    | some ab => (minmax_scale ab ys).map (fun v => [v])
    | none => ys.map (fun v => [v * prediction_normal_factor])

/-- Lines 239-249: `self._values` and the attack-model labels
`y_attack_ready` derived from the attacked column(s) of `x`. -/
def attackLabels (af : AttackFeature) (is_continuous : Bool) (x : Mat) :
    Option FeatureValues × Mat :=
  if is_continuous then
    (none, match af with
      | .int i => x.map (fun r => [r.getD i 0])
      | .slice _ _ _ => x.map (extractRow af))
  else
    match af with
    | .int i =>
      let col := x.map (fun r => r.getD i 0)
      (some (.single (get_feature_values_single col)), float_to_categorical col)
    | .slice _ _ _ =>
      let sub := x.map (extractRow af)
      (some (.multi (get_feature_values_multi sub)), floats_to_one_hot sub)

/-- Lines 254-269: the encoder in effect after `fit` — when
`non_numerical_features` is a non-empty list and no encoder was supplied, an
ordinal-encoding `ColumnTransformer` over the shifted indexes is fitted on
`x_train`; otherwise the pre-existing encoder (possibly `None`) stands. -/
def fitEncoder (af : AttackFeature) (non_numerical_features : Option (List ℕ))
    (encoder0 : Option Encoder) (xb : Mat) : Option Encoder :=
  match non_numerical_features, encoder0 with
  | some l, none =>
    if l.isEmpty then none
    else
      let ci : ℤ := match af with | .int i => i | .slice s _ _ => s
      let size : ℤ := match af with
        | .int _ => 1
        | .slice s t st => Int.fdiv ((t : ℤ) - (s : ℤ)) (st : ℤ)
      some (ctFit (l.map (fun f => if ci < (f : ℤ) then (f : ℤ) - size else (f : ℤ))) xb)
  | _, _ => encoder0

/-- The success payload of `fit`: what is computed once the two shape checks
have passed (lines 222-315; the float32 cast of line 273 is dropped). -/
def fitPayload (est : Estimator) (af : AttackFeature) (is_continuous : Bool)
    (scale_range : Option (ℚ × ℚ)) (prediction_normal_factor : ℚ)
    (non_numerical_features : Option (List ℕ)) (encoder0 : Option Encoder)
    (x : Mat) (y : Option (List ℚ)) : FitResult :=
  let predictions := predColumn est scale_range prediction_normal_factor x
  let yt : Option Mat := y.map (yBlock est scale_range prediction_normal_factor)
  let vl := attackLabels af is_continuous x
  let xb := x.map (npDeleteRow af)
  let enc := fitEncoder af non_numerical_features encoder0 xb
  let xe := match enc with | some e => e.transform xb | none => xb
  let x1 := hcat xe predictions
  let x2 := match yt with | some ym => hcat x1 ym | none => x1
  ⟨vl.1, enc, x2, vl.2⟩

/-- Embedding of `AttributeInferenceBlackBox.fit` (lines 207-315): the two `ValueError`
checks of lines 216-220, then the training-set construction. -/
def fit (est : Estimator) (af : AttackFeature) (is_continuous : Bool)
    (scale_range : Option (ℚ × ℚ)) (prediction_normal_factor : ℚ)
    (non_numerical_features : Option (List ℕ)) (encoder0 : Option Encoder)
    (x : Mat) (y : Option (List ℚ)) : Except String FitResult :=
  let width := (x.headD []).length
  let shapeBad : Bool := match est.input_shape with
    | some s => s != width
    | none => false
  if shapeBad then .error "Shape of x does not match input_shape of model"
  else
    let afBad : Bool := match af with
      | .int i => decide (width ≤ i)
      | .slice _ _ _ => false
    if afBad then .error "`attack_feature` must be a valid index to a feature in x"
    else .ok (fitPayload est af is_continuous scale_range prediction_normal_factor
      non_numerical_features encoder0 x y)

/-! ## `AttributeInferenceBlackBox.infer` (lines 317-412) -/

/-- The result of `infer`: a 2-D array (continuous or multi-column case) or a
1-D array of inferred feature values (categorical single-column case). -/
inductive InferOut where
  | mat (m : Mat)
  | vec (v : List ℚ)
deriving DecidableEq

/-- Numpy `np.zeros_like` plus `[argmax] = 1` on one row: the one-hot row of the
first maximum. -/
def oneHotArgmax (r : List ℚ) : List ℚ := oneHot r.length (argmaxIdx r)

/-- The nn prediction loop (lines 385-397): batches of 100 rows are pushed
through the model (the torch module maps rows independently) and stacked; for
a categorical feature the whole accumulated stack is re-one-hot-encoded by row
argmax after every batch. -/
def nnBatches (is_continuous : Bool) (amp : List ℚ → List ℚ) (acc rows : Mat) : Mat :=
  match rows with
  | [] => acc
  | r :: rest =>
    let s := acc ++ ((r :: rest.take 99).map amp)
    nnBatches is_continuous amp (if is_continuous then s else s.map oneHotArgmax)
      (rest.drop 99)
termination_by rows.length
decreasing_by simp [List.length_drop]; omega

/-- Lines 407-411: the `np.place` inversion for a multi-column feature — in
column `i`, each class index `k` is replaced (sequentially) by
`values[i][k]`. -/
def placeCol (vi : List ℚ) (col : List ℚ) : List ℚ :=
  (List.range vi.length).foldl
    (fun c (k : ℕ) => c.map (fun v => if v = ((k : ℕ) : ℚ) then vi.getD k 0 else v)) col

/-- The `np.place` inversion over the whole prediction matrix. -/
def npPlaceAll (vss : List (List ℚ)) (m : Mat) : Mat :=
  (m.transpose.enum.map (fun q => placeCol (vss.getD q.1 []) q.2)).transpose

/-- Lines 334-338: the `values` kwarg overrides the values computed in
`fit`. -/
def resolveValues (fitValues valuesArg : Option FeatureValues) : Option FeatureValues :=
  match valuesArg with
  | some v => some v
  | none => fitValues

/-- Lines 347-349: the input-shape check of `infer` (only for an int attacked
feature). -/
def inferShapeBad (est : Estimator) (af : AttackFeature) (x : Mat) : Bool :=
  match est.input_shape, af with
  | some s, .int _ => s != (x.headD []).length + 1
  | _, _ => false

/-- Lines 351-374: the feature matrix `x_test` handed to the attack model —
the (possibly encoder-transformed) `x`, the supplied predictions (scaled or
factor-multiplied for a regressor), and the transformed `y` when provided. -/
def inferFeatures (est : Estimator) (scale_range : Option (ℚ × ℚ))
    (prediction_normal_factor : ℚ) (encoder : Option Encoder)
    (x : Mat) (y : Option (List ℚ)) (p : Mat) : Mat :=
  let x0 := match encoder with | some e => e.transform x | none => x
  let x1 := match est.kind with
    | .regressor =>
      match scale_range with
      | some ab => hcat x0 (minmaxMat ab p)
      | none => hcat x0 (p.map (fun r => r.map (· * prediction_normal_factor)))
    | .classifier => hcat x0 p
  match y with
  | none => x1
  | some ys => hcat x1 (yBlock est scale_range prediction_normal_factor ys)

/-- Lines 376-400: the attack model's predictions for `x_test` — the batched
torch loop for `"nn"`, a direct `predict` otherwise. -/
def attackOut (amType : AMType) (is_continuous : Bool)
    (amp : List ℚ → List ℚ) (m : Mat) : Mat :=
  match amType with
  | .nn => nnBatches is_continuous amp [] m
  | _ => m.map amp

/-- The part of `infer` past its `ValueError` checks (lines 351-412). -/
def inferPayload (est : Estimator) (af : AttackFeature) (is_continuous : Bool)
    (scale_range : Option (ℚ × ℚ)) (prediction_normal_factor : ℚ)
    (encoder : Option Encoder) (fitValues : Option FeatureValues)
    (amType : AMType) (amp : List ℚ → List ℚ)
    (x : Mat) (y : Option (List ℚ)) (p : Mat)
    (valuesArg : Option FeatureValues) : Except String InferOut :=
  let vals := resolveValues fitValues valuesArg
  let out := attackOut amType is_continuous amp
    (inferFeatures est scale_range prediction_normal_factor encoder x y p)
  if is_continuous then .ok (.mat out)
  else
    match vals with
    | none => .ok (.mat out)
    | some fv =>
      match af, fv with
      | .int _, .single v => .ok (.vec (out.map (fun r => v.getD (argmaxIdx r) 0)))
      | .int _, .multi vss => .ok (.mat (out.map (fun r => vss.getD (argmaxIdx r) [])))
      | .slice _ _ _, .multi vss => .ok (.mat (npPlaceAll vss out))
      | .slice _ _ _, .single _ => .error "TypeError"

/-- Embedding of `AttributeInferenceBlackBox.infer` (lines 317-412): the `pred` checks of
lines 340-346 and the shape check of lines 347-349, then the inversion
pipeline. -/
def infer (est : Estimator) (af : AttackFeature) (is_continuous : Bool)
    (scale_range : Option (ℚ × ℚ)) (prediction_normal_factor : ℚ)
    (encoder : Option Encoder) (fitValues : Option FeatureValues)
    (amType : AMType) (amp : List ℚ → List ℚ)
    (x : Mat) (y : Option (List ℚ)) (pred : Option Mat)
    (valuesArg : Option FeatureValues) : Except String InferOut :=
  match pred with
  | none => .error "Please provide param `pred` of model predictions."
  | some p =>
    if p.length != x.length then .error "Number of rows in x and y do not match"
    else if inferShapeBad est af x then
      .error "Number of features in x + 1 does not match input_shape of model"
    else inferPayload est af is_continuous scale_range prediction_normal_factor
      encoder fitValues amType amp x y p valuesArg

/-! ## Spec-side definitions for the claims -/

/-- Claim C1's wording: `x` with the attacked-feature column(s) removed — the
entries whose column index is not designated by `attack_feature`, in order. -/
def removeAttackedRow (af : AttackFeature) (r : List ℚ) : List ℚ :=
  keepIdx (afIdxs af) 0 r

/-- Claim C1/C2's wording: the "(possibly encoder-transformed) remaining
features". -/
def encodedRemaining (enc : Option Encoder) (af : AttackFeature) (x : Mat) : Mat :=
  match enc with
  | some e => e.transform (x.map (removeAttackedRow af))
  | none => x.map (removeAttackedRow af)

/-- Claim C3's wording: the width of the removed attacked feature — 1 for an
int, `(stop - start) // step` for a slice. -/
def afWidth : AttackFeature → ℤ
  | .int _ => 1
  | .slice s t st => Int.fdiv ((t : ℤ) - (s : ℤ)) (st : ℤ)

/-- The attacked feature's position (its index, or a slice's start). -/
def afPos : AttackFeature → ℤ
  | .int i => i
  | .slice s _ _ => s

/-- Claim C3's wording: each non-numerical feature index, shifted down by the
attacked feature's width when it lies above the attacked feature's
position. -/
def shiftedIndexes (af : AttackFeature) (l : List ℕ) : List ℤ :=
  l.map (fun f => if afPos af < (f : ℤ) then (f : ℤ) - afWidth af else (f : ℤ))

/-- Claim C5's wording: a row is a one-hot row when it is the one-hot encoding
of some class index within its width. -/
def isOneHotRow (r : List ℚ) : Bool :=
  (List.range r.length).any (fun j => r == oneHot r.length j)

/-! ## Concrete instances used in witnesses and counterexamples -/

/-- A concrete regressor predicting 11 for every row, with
`prediction_normal_factor` intended to be 2. -/
def estReg2 : Estimator := ⟨.regressor, fun _ => [], fun _ => [11], 0, none⟩

/-- A concrete classifier whose score row is always `[1]`. -/
def estCls1 : Estimator := ⟨.classifier, fun m => m.map (fun _ => [1]), fun _ => [], 0, none⟩

/-- A concrete attack-model row function with two output classes. -/
def ampC : List ℚ → List ℚ := fun _ => [1, 5]

/-! ## Helper lemmas -/

theorem keepIdx_single_ge (i : ℕ) : ∀ (r : List ℚ) (k : ℕ), i < k → keepIdx [i] k r = r := by
  intro r
  induction r with
  | nil => intro k _; rfl
  | cons a r ih =>
    intro k hk
    simp only [keepIdx, List.mem_singleton]
    rw [if_neg (by omega), ih (k + 1) (by omega)]

theorem keepIdx_single_take_drop : ∀ (r : List ℚ) (i : ℕ),
    keepIdx [i] 0 r = r.take i ++ r.drop (i + 1) := by
  have shift : ∀ (r : List ℚ) (k i : ℕ), keepIdx [i + 1] (k + 1) r = keepIdx [i] k r := by
    intro r
    induction r with
    | nil => intro k i; rfl
    | cons a r ih =>
      intro k i
      simp only [keepIdx, List.mem_singleton]
      by_cases h : k = i
      · rw [if_pos (by omega), if_pos h, ih]
      · rw [if_neg (by omega), if_neg h, ih]
  intro r
  induction r with
  | nil => intro i; simp [keepIdx]
  | cons a r ih =>
    intro i
    cases i with
    | zero =>
      simp only [keepIdx, List.mem_singleton, if_pos rfl]
      rw [keepIdx_single_ge 0 r 1 (by omega)]
      simp
    | succ i =>
      simp only [keepIdx, List.mem_singleton]
      rw [if_neg (by omega), shift, ih]
      simp

theorem npDeleteRow_eq_removeAttackedRow (af : AttackFeature) (r : List ℚ) :
    npDeleteRow af r = removeAttackedRow af r := by
  cases af with
  | int i =>
    simp only [npDeleteRow, removeAttackedRow, afIdxs]
    exact (keepIdx_single_take_drop r i).symm
  | slice s t st => rfl

theorem keepIdx_provenance : ∀ (r : List ℚ) (bad : List ℕ) (k : ℕ) (v : ℚ),
    v ∈ keepIdx bad k r → ∃ j, k ≤ j ∧ j ∉ bad ∧ r.getD (j - k) 0 = v := by
  intro r
  induction r with
  | nil => intro bad k v hv; simp [keepIdx] at hv
  | cons a r ih =>
    intro bad k v hv
    simp only [keepIdx] at hv
    by_cases hk : k ∈ bad
    · rw [if_pos hk] at hv
      obtain ⟨j, hj1, hj2, hj3⟩ := ih bad (k + 1) v hv
      refine ⟨j, by omega, hj2, ?_⟩
      obtain ⟨m, hm⟩ : ∃ m, j - k = m + 1 := ⟨j - k - 1, by omega⟩
      rw [hm, List.getD_cons_succ]
      have : j - (k + 1) = m := by omega
      rwa [this] at hj3
    · rw [if_neg hk] at hv
      rcases List.mem_cons.mp hv with hv | hv
      · exact ⟨k, le_refl k, hk, by simp [hv]⟩
      · obtain ⟨j, hj1, hj2, hj3⟩ := ih bad (k + 1) v hv
        refine ⟨j, by omega, hj2, ?_⟩
        obtain ⟨m, hm⟩ : ∃ m, j - k = m + 1 := ⟨j - k - 1, by omega⟩
        rw [hm, List.getD_cons_succ]
        have : j - (k + 1) = m := by omega
        rwa [this] at hj3

theorem hcat_assoc : ∀ (a b c : Mat), hcat (hcat a b) c = hcat a (hcat b c) := by
  intro a
  induction a with
  | nil => intro b c; rfl
  | cons r a ih =>
    intro b c
    cases b with
    | nil => rfl
    | cons rb b =>
      cases c with
      | nil => rfl
      | cons rc c => simp [hcat, List.append_assoc] at ih ⊢; exact ih b c

theorem length_oneHot : ∀ (n j : ℕ), (oneHot n j).length = n := by
  intro n
  induction n with
  | zero => intro j; rfl
  | succ n ih =>
    intro j
    cases j with
    | zero => simp [oneHot]
    | succ j => simp [oneHot, ih]

theorem argmaxIdx_lt_length : ∀ (l : List ℚ), l ≠ [] → argmaxIdx l < l.length
  | [], h => absurd rfl h
  | [_], _ => by simp [argmaxIdx]
  | a :: b :: r, _ => by
    have ih := argmaxIdx_lt_length (b :: r) (by simp)
    simp only [argmaxIdx]
    split
    · simp only [List.length_cons] at ih ⊢; omega
    · simp

theorem getD_oneHot_self : ∀ (n j : ℕ), j < n → (oneHot n j).getD j 0 = 1 := by
  intro n
  induction n with
  | zero => intro j hj; omega
  | succ n ih =>
    intro j hj
    cases j with
    | zero => simp [oneHot]
    | succ j => simpa [oneHot] using ih j (by omega)

theorem getD_replicate_zero : ∀ (n k : ℕ), (List.replicate n (0 : ℚ)).getD k 0 = 0 := by
  intro n
  induction n with
  | zero => intro k; simp
  | succ n ih =>
    intro k
    cases k with
    | zero => simp [List.replicate]
    | succ k => simp only [List.replicate, List.getD_cons_succ]; exact ih k

theorem argmaxIdx_replicate_zero : ∀ (n : ℕ), argmaxIdx (List.replicate n (0 : ℚ)) = 0
  | 0 => rfl
  | 1 => rfl
  | n + 2 => by
    have ih := argmaxIdx_replicate_zero (n + 1)
    show argmaxIdx ((0 : ℚ) :: (0 : ℚ) :: List.replicate n 0) = 0
    have hrep : (0 : ℚ) :: List.replicate n (0 : ℚ) = List.replicate (n + 1) (0 : ℚ) := rfl
    simp only [argmaxIdx, hrep, ih, getD_replicate_zero]
    simp

theorem argmaxIdx_oneHot : ∀ (n j : ℕ), j < n → argmaxIdx (oneHot n j) = j := by
  intro n
  induction n with
  | zero => intro j hj; omega
  | succ n ih =>
    intro j hj
    cases j with
    | zero =>
      cases n with
      | zero => rfl
      | succ m =>
        show argmaxIdx ((1 : ℚ) :: (0 : ℚ) :: List.replicate m 0) = 0
        have hrep : (0 : ℚ) :: List.replicate m (0 : ℚ) = List.replicate (m + 1) (0 : ℚ) := rfl
        simp only [argmaxIdx, hrep, argmaxIdx_replicate_zero, getD_replicate_zero]
        norm_num
    | succ j =>
      have hj' : j < n := by omega
      have hlen : (oneHot n j).length = n := length_oneHot n j
      have hne : oneHot n j ≠ [] := by
        intro h
        rw [h] at hlen
        simp at hlen
        omega
      obtain ⟨c, tail, htail⟩ : ∃ c tail, oneHot n j = c :: tail := by
        cases hO : oneHot n j with
        | nil => exact absurd hO hne
        | cons c tail => exact ⟨c, tail, rfl⟩
      show argmaxIdx ((0 : ℚ) :: oneHot n j) = j + 1
      rw [htail]
      simp only [argmaxIdx]
      rw [← htail, ih j hj', getD_oneHot_self n j hj']
      norm_num

theorem length_oneHotArgmax (r : List ℚ) : (oneHotArgmax r).length = r.length :=
  length_oneHot r.length (argmaxIdx r)

theorem argmaxIdx_oneHotArgmax (r : List ℚ) (h : r ≠ []) :
    argmaxIdx (oneHotArgmax r) = argmaxIdx r :=
  argmaxIdx_oneHot r.length (argmaxIdx r) (argmaxIdx_lt_length r h)

theorem oneHotArgmax_idem (r : List ℚ) : oneHotArgmax (oneHotArgmax r) = oneHotArgmax r := by
  cases hr : r with
  | nil => rfl
  | cons a t =>
    have hne : r ≠ [] := by rw [hr]; simp
    rw [← hr]
    show oneHot (oneHotArgmax r).length (argmaxIdx (oneHotArgmax r)) = oneHotArgmax r
    rw [length_oneHotArgmax, argmaxIdx_oneHotArgmax r hne]
    rfl

theorem nnBatches_false_eq (amp : List ℚ → List ℚ) : ∀ (rows done : Mat),
    nnBatches false amp (done.map (fun r => oneHotArgmax (amp r))) rows
      = (done ++ rows).map (fun r => oneHotArgmax (amp r))
  | [], done => by simp [nnBatches]
  | r :: rest, done => by
    rw [nnBatches]
    simp only [Bool.false_eq_true, if_false]
    have hacc : ((done.map (fun r => oneHotArgmax (amp r))
          ++ (r :: rest.take 99).map amp).map oneHotArgmax)
        = (done ++ (r :: rest.take 99)).map (fun r => oneHotArgmax (amp r)) := by
      rw [List.map_append, List.map_map, List.map_map, List.map_append]
      congr 1
      apply List.map_congr_left
      intro a _
      exact oneHotArgmax_idem (amp a)
    rw [hacc, nnBatches_false_eq amp (rest.drop 99) (done ++ (r :: rest.take 99))]
    rw [List.append_assoc]
    congr 2
    simp [List.take_append_drop]
termination_by rows => rows.length
decreasing_by simp [List.length_drop]; omega

theorem attackOut_nn_false (amp : List ℚ → List ℚ) (m : Mat) :
    attackOut .nn false amp m = m.map (fun r => oneHotArgmax (amp r)) := by
  have := nnBatches_false_eq amp m []
  simpa [attackOut] using this

theorem fit_ok_payload (est : Estimator) (af : AttackFeature) (is_continuous : Bool)
    (scale_range : Option (ℚ × ℚ)) (pnf : ℚ) (nnf : Option (List ℕ))
    (encoder0 : Option Encoder) (x : Mat) (y : Option (List ℚ)) (res : FitResult)
    (hok : fit est af is_continuous scale_range pnf nnf encoder0 x y = .ok res) :
    res = fitPayload est af is_continuous scale_range pnf nnf encoder0 x y := by
  simp only [fit] at hok
  split at hok
  · exact Except.noConfusion hok
  · split at hok
    · exact Except.noConfusion hok
    · exact (Except.ok.inj hok).symm

theorem infer_guards_pass (est : Estimator) (af : AttackFeature) (is_continuous : Bool)
    (scale_range : Option (ℚ × ℚ)) (pnf : ℚ) (encoder : Option Encoder)
    (fitValues : Option FeatureValues) (amType : AMType) (amp : List ℚ → List ℚ)
    (x : Mat) (y : Option (List ℚ)) (p : Mat) (valuesArg : Option FeatureValues)
    (h1 : p.length = x.length) (h2 : inferShapeBad est af x = false) :
    infer est af is_continuous scale_range pnf encoder fitValues amType amp x y
        (some p) valuesArg
      = inferPayload est af is_continuous scale_range pnf encoder fitValues amType amp
          x y p valuesArg := by
  simp [infer, h1, h2]

theorem fit_trainX_decomp (est : Estimator) (af : AttackFeature)
    (is_continuous : Bool) (scale_range : Option (ℚ × ℚ)) (pnf : ℚ)
    (nnf : Option (List ℕ)) (encoder0 : Option Encoder) (x : Mat)
    (y : Option (List ℚ)) (res : FitResult)
    (hok : fit est af is_continuous scale_range pnf nnf encoder0 x y = .ok res) :
    res.trainX = match y with
      | some ys => hcat (hcat (encodedRemaining res.encoder af x)
          (predColumn est scale_range pnf x)) (yBlock est scale_range pnf ys)
      | none => hcat (encodedRemaining res.encoder af x)
          (predColumn est scale_range pnf x) := by
  have hres := fit_ok_payload est af is_continuous scale_range pnf nnf encoder0 x y res hok
  subst hres
  have hxb : x.map (npDeleteRow af) = x.map (removeAttackedRow af) :=
    List.map_congr_left (fun r _ => npDeleteRow_eq_removeAttackedRow af r)
  simp only [fitPayload, encodedRemaining, hxb]
  cases henc : fitEncoder af nnf encoder0 (x.map (removeAttackedRow af)) with
  | none => cases y <;> rfl
  | some e => cases y <;> rfl

theorem fitEncoder_some_eq (af : AttackFeature) (l : List ℕ) (xb : Mat) (hl : l ≠ []) :
    fitEncoder af (some l) none xb = some (ctFit (shiftedIndexes af l) xb) := by
  have hne : l.isEmpty = false := by
    cases l with
    | nil => exact absurd rfl hl
    | cons a t => rfl
  cases af with
  | int i => simp [fitEncoder, shiftedIndexes, afPos, afWidth, hne]
  | slice s t st => simp [fitEncoder, shiftedIndexes, afPos, afWidth, hne]

/-! ## Claim theorems -/

/-- C6 (code bug): on a non-square 1×2×5×1 NHWC image with `length = 2` and
sampled centre (`center_y`, `center_x`) = (0, 4), `forward` returns the input
unchanged — the slice bounds computed from `center_x` are applied to the
height axis, selecting no pixel — although the pixel at row 0, column 4 lies
inside the square of side `length` centred at the sampled position clipped at
the image borders, which the claim says is zeroed. -/
theorem cutout_swapped_axes_bug :
    cutoutForward false 2 [(0, 4)] ⟨[1, 2, 5, 1], dataTen⟩ none
        = .ok (⟨[1, 2, 5, 1], dataTen⟩, none)
      ∧ claimedBox 2 2 5 0 4 0 4 = true
      ∧ dataTen.getD 4 0 ≠ 0 := by
  refine ⟨?_, by decide, by decide⟩
  have hmask : ∀ q ∈ dataTen.enum, cutoutMaskVal false 2 [(0, 4)] 1 2 5 1 q.1 = 1 := by
    decide
  have hdata : (dataTen.enum).map
      (fun q => q.2 * cutoutMaskVal false 2 [(0, 4)] 1 2 5 1 q.1) = dataTen := by
    have h1 : (dataTen.enum).map
        (fun q => q.2 * cutoutMaskVal false 2 [(0, 4)] 1 2 5 1 q.1)
          = (dataTen.enum).map Prod.snd :=
      List.map_congr_left (fun q hq => by rw [hmask q hq, mul_one])
    rw [h1]
    rfl
  simp only [cutoutForward]
  rw [hdata]

/-- C7: for every input `x` whose number of dimensions is not 4,
`CutoutTensorFlowV2.forward` raises `ValueError` ("Cutout can only be applied
to image data") without producing any output. -/
theorem cutout_rejects_non_4d (channels_first : Bool) (length : ℕ)
    (centers : List (ℕ × ℕ)) (x : TFTensor) (y : Option (List ℚ))
    (h : x.shape.length ≠ 4) :
    cutoutForward channels_first length centers x y =
      .error "Unrecognized input dimension. Cutout can only be applied to image data." := by
  obtain ⟨sh, d⟩ := x
  simp only [cutoutForward] at *
  rcases sh with _ | ⟨a, sh⟩
  · rfl
  rcases sh with _ | ⟨b, sh⟩
  · rfl
  rcases sh with _ | ⟨c, sh⟩
  · rfl
  rcases sh with _ | ⟨e, sh⟩
  · rfl
  rcases sh with _ | ⟨f, sh⟩
  · simp at h
  · rfl

theorem cutout_rejects_non_4d_witness :
    cutoutForward false 1 [] ⟨[2, 3], [1]⟩ none =
      .error "Unrecognized input dimension. Cutout can only be applied to image data." :=
  cutout_rejects_non_4d false 1 [] ⟨[2, 3], [1]⟩ none (by decide)

/-- C8: for every 4-D input `x` and every label argument `y` (including
`None`), `CutoutTensorFlowV2.forward` returns `y` unchanged as the second
component of its result. -/
theorem cutout_preserves_labels (channels_first : Bool) (length : ℕ)
    (centers : List (ℕ × ℕ)) (x : TFTensor) (y : Option (List ℚ))
    (n d1 d2 d3 : ℕ) (hs : x.shape = [n, d1, d2, d3]) :
    Except.map Prod.snd (cutoutForward channels_first length centers x y) = .ok y := by
  obtain ⟨sh, d⟩ := x
  simp only at hs
  subst hs
  rfl

theorem cutout_preserves_labels_witness :
    Except.map Prod.snd (cutoutForward false 1 [(0, 0)] ⟨[1, 1, 1, 1], [7]⟩ (some [2]))
      = .ok (some [2]) :=
  cutout_preserves_labels false 1 [(0, 0)] ⟨[1, 1, 1, 1], [7]⟩ (some [2]) 1 1 1 1 rfl

/-- C9: `infer` raises `ValueError` when `pred` is absent or `None`,
independently of the attack model, and likewise when the number of rows of
`pred` differs from the number of rows of `x`. -/
theorem infer_pred_checks (est : Estimator) (af : AttackFeature) (is_continuous : Bool)
    (scale_range : Option (ℚ × ℚ)) (pnf : ℚ) (encoder : Option Encoder)
    (fitValues : Option FeatureValues) (amType : AMType) (amp : List ℚ → List ℚ)
    (x : Mat) (y : Option (List ℚ)) (valuesArg : Option FeatureValues) (p : Mat) :
    (infer est af is_continuous scale_range pnf encoder fitValues amType amp x y
        none valuesArg
      = .error "Please provide param `pred` of model predictions.")
    ∧ (p.length ≠ x.length →
      infer est af is_continuous scale_range pnf encoder fitValues amType amp x y
          (some p) valuesArg
        = .error "Number of rows in x and y do not match") := by
  constructor
  · rfl
  · intro hp
    simp [infer, hp]

/-- C1: the feature matrix `fit` trains the attack model on is built from `x`
with the attacked feature's column(s) removed — its first block is the
(possibly encoder-transformed) matrix of the remaining columns — and every
entry of those remaining rows comes from a column index outside the attacked
feature. -/
theorem fit_strips_attacked_feature (est : Estimator) (af : AttackFeature)
    (is_continuous : Bool) (scale_range : Option (ℚ × ℚ)) (pnf : ℚ)
    (nnf : Option (List ℕ)) (encoder0 : Option Encoder) (x : Mat)
    (y : Option (List ℚ)) (res : FitResult)
    (hok : fit est af is_continuous scale_range pnf nnf encoder0 x y = .ok res) :
    (∃ rest, res.trainX = hcat (encodedRemaining res.encoder af x) rest)
      ∧ ∀ r ∈ x, ∀ v ∈ removeAttackedRow af r, ∃ j, j ∉ afIdxs af ∧ r.getD j 0 = v := by
  have hres := fit_ok_payload est af is_continuous scale_range pnf nnf encoder0 x y res hok
  subst hres
  constructor
  · have hxb : x.map (npDeleteRow af) = x.map (removeAttackedRow af) :=
      List.map_congr_left (fun r _ => npDeleteRow_eq_removeAttackedRow af r)
    simp only [fitPayload, encodedRemaining, hxb]
    cases henc : fitEncoder af nnf encoder0 (x.map (removeAttackedRow af)) with
    | none =>
      cases y with
      | none => exact ⟨predColumn est scale_range pnf x, rfl⟩
      | some ys =>
        exact ⟨hcat (predColumn est scale_range pnf x) (yBlock est scale_range pnf ys),
          (hcat_assoc _ _ _)⟩
    | some e =>
      cases y with
      | none => exact ⟨predColumn est scale_range pnf x, rfl⟩
      | some ys =>
        exact ⟨hcat (predColumn est scale_range pnf x) (yBlock est scale_range pnf ys),
          (hcat_assoc _ _ _)⟩
  · intro r _ v hv
    obtain ⟨j, _, hj2, hj3⟩ := keepIdx_provenance r (afIdxs af) 0 v hv
    exact ⟨j, hj2, by simpa using hj3⟩

theorem fit_strips_attacked_feature_witness :
    (∃ rest, (fitPayload estCls1 (.int 1) true none 1 none none [[1, 2, 3], [4, 5, 6]]
        none).trainX
      = hcat (encodedRemaining (fitPayload estCls1 (.int 1) true none 1 none none
          [[1, 2, 3], [4, 5, 6]] none).encoder (.int 1) [[1, 2, 3], [4, 5, 6]]) rest)
    ∧ ∀ r ∈ ([[1, 2, 3], [4, 5, 6]] : Mat), ∀ v ∈ removeAttackedRow (.int 1) r,
        ∃ j, j ∉ afIdxs (.int 1) ∧ r.getD j 0 = v :=
  fit_strips_attacked_feature estCls1 (.int 1) true none 1 none none
    [[1, 2, 3], [4, 5, 6]] none _ rfl

/-- C2 (counterexample): with a regressor, `prediction_normal_factor = 0` and
`y = [3]`, the derived feature vector ends in the transformed label 0, not the
raw true label 3 — so it is not the remaining features, predictions and the
true labels `y`. -/
theorem fit_derived_vector_cex :
    Except.map FitResult.trainX (fit estReg2 (.int 0) true none 0 none none [[5, 7]]
        (some [3]))
      = .ok [[7, 0, 0]]
    ∧ ([[7, 0, 0]] : Mat)
      ≠ hcat (hcat (([[5, 7]] : Mat).map (removeAttackedRow (.int 0)))
          (predColumn estReg2 none 0 [[5, 7]])) ([3].map (fun v => [v])) := by
  constructor
  · simp only [fit, fitPayload, predColumn, yBlock, attackLabels, fitEncoder, estReg2,
      npDeleteRow, hcat, Except.map, Option.map, mul_zero]
    decide
  · simp only [predColumn, estReg2, removeAttackedRow, keepIdx, afIdxs, hcat, mul_zero]
    decide

/-- C2 (amended): the derived feature vector equals the (possibly
encoder-transformed) remaining features, concatenated column-wise with the
estimator's predictions for `x`, followed — whenever `y` is provided — by the
true labels `y` transformed the same way as the predictions (one-hot encoded
for a classifier; min-max scaled or factor-multiplied and reshaped to a
column for a regressor). -/
theorem fit_derived_vector (est : Estimator) (af : AttackFeature)
    (is_continuous : Bool) (scale_range : Option (ℚ × ℚ)) (pnf : ℚ)
    (nnf : Option (List ℕ)) (encoder0 : Option Encoder) (x : Mat)
    (y : Option (List ℚ)) (res : FitResult)
    (hok : fit est af is_continuous scale_range pnf nnf encoder0 x y = .ok res) :
    res.trainX = match y with
      | some ys => hcat (hcat (encodedRemaining res.encoder af x)
          (predColumn est scale_range pnf x)) (yBlock est scale_range pnf ys)
      | none => hcat (encodedRemaining res.encoder af x)
          (predColumn est scale_range pnf x) :=
  fit_trainX_decomp est af is_continuous scale_range pnf nnf encoder0 x y res hok

theorem fit_derived_vector_witness :
    (fitPayload estReg2 (.int 0) true none 0 none none [[5, 7]] (some [3])).trainX
      = hcat (hcat (encodedRemaining (fitPayload estReg2 (.int 0) true none 0 none none
            [[5, 7]] (some [3])).encoder (.int 0) [[5, 7]])
          (predColumn estReg2 none 0 [[5, 7]])) (yBlock estReg2 none 0 [3]) :=
  fit_derived_vector estReg2 (.int 0) true none 0 none none [[5, 7]] (some [3]) _ rfl

/-- C3: when `non_numerical_features` is a (non-empty) list and no encoder was
given, `fit` builds an ordinal-encoding `ColumnTransformer` over exactly those
indexes shifted down by the attacked feature's width when they lie above its
position, fits it on the remaining features, and applies it to them before
training. -/
theorem fit_builds_ordinal_encoder (est : Estimator) (af : AttackFeature)
    (is_continuous : Bool) (scale_range : Option (ℚ × ℚ)) (pnf : ℚ)
    (l : List ℕ) (x : Mat) (y : Option (List ℚ)) (res : FitResult) (hl : l ≠ [])
    (hok : fit est af is_continuous scale_range pnf (some l) none x y = .ok res) :
    res.encoder = some (ctFit (shiftedIndexes af l) (x.map (removeAttackedRow af)))
      ∧ res.trainX = (match y with
        | some ys => hcat (hcat ((ctFit (shiftedIndexes af l)
              (x.map (removeAttackedRow af))).transform (x.map (removeAttackedRow af)))
            (predColumn est scale_range pnf x)) (yBlock est scale_range pnf ys)
        | none => hcat ((ctFit (shiftedIndexes af l)
              (x.map (removeAttackedRow af))).transform (x.map (removeAttackedRow af)))
            (predColumn est scale_range pnf x)) := by
  have hres := fit_ok_payload est af is_continuous scale_range pnf (some l) none x y res hok
  subst hres
  have hxb : x.map (npDeleteRow af) = x.map (removeAttackedRow af) :=
    List.map_congr_left (fun r _ => npDeleteRow_eq_removeAttackedRow af r)
  have henc := fitEncoder_some_eq af l (x.map (removeAttackedRow af)) hl
  constructor
  · simp only [fitPayload, hxb, henc]
  · simp only [fitPayload, hxb, henc]
    cases y <;> rfl

theorem fit_builds_ordinal_encoder_witness :
    ((fitPayload estCls1 (.int 1) true none 1 (some [2]) none [[1, 2, 3], [4, 5, 6]]
        none).encoder
      = some (ctFit (shiftedIndexes (.int 1) [2])
          (([[1, 2, 3], [4, 5, 6]] : Mat).map (removeAttackedRow (.int 1)))))
    ∧ (fitPayload estCls1 (.int 1) true none 1 (some [2]) none [[1, 2, 3], [4, 5, 6]]
        none).trainX
      = hcat ((ctFit (shiftedIndexes (.int 1) [2])
            (([[1, 2, 3], [4, 5, 6]] : Mat).map (removeAttackedRow (.int 1)))).transform
          (([[1, 2, 3], [4, 5, 6]] : Mat).map (removeAttackedRow (.int 1))))
        (predColumn estCls1 none 1 [[1, 2, 3], [4, 5, 6]]) :=
  fit_builds_ordinal_encoder estCls1 (.int 1) true none 1 [2] [[1, 2, 3], [4, 5, 6]]
    none _ (by decide) rfl

/-- C5 (counterexample): with the multi-column attacked feature
`slice(0, 2, 1)` on `x = [[0, 5, 1], [1, 7, 2]]`, the labels `fit` trains the
attack model on are `[[0, 0], [1, 1]]` — the per-column rank codes of the
attacked columns — and neither row is a one-hot row, so the labels are not
the one-hot encoding of the attacked feature's columns. -/
theorem fit_categorical_labels_cex :
    Except.map FitResult.trainY (fit estCls1 (.slice 0 2 1) false none 1 none none
        [[0, 5, 1], [1, 7, 2]] none)
      = .ok [[0, 0], [1, 1]]
    ∧ ([[0, 0], [1, 1]] : Mat).all isOneHotRow = false
    ∧ Except.map FitResult.values (fit estCls1 (.slice 0 2 1) false none 1 none none
        [[0, 5, 1], [1, 7, 2]] none)
      = .ok (some (.multi [[0, 1], [5, 7]])) := by
  refine ⟨by decide, by decide, by decide⟩

/-- C5 (amended): for a categorical attacked feature, a single-column (int)
`attack_feature` yields labels that are the one-hot encoding of the attacked
column extracted from `x`, with as many classes as there are distinct values
in the training data, and `self._values` is the list of those values; a
multi-column (slice) `attack_feature` instead has each attacked column
recoded by the rank of its value among that column's distinct values, with
`self._values` holding one value list per column.  In both cases the attack
model is trained on exactly the pair (derived feature vector, these
labels). -/
theorem fit_categorical_labels (est : Estimator) (af : AttackFeature)
    (scale_range : Option (ℚ × ℚ)) (pnf : ℚ) (nnf : Option (List ℕ))
    (encoder0 : Option Encoder) (x : Mat) (y : Option (List ℚ)) (res : FitResult)
    (hok : fit est af false scale_range pnf nnf encoder0 x y = .ok res) :
    (match af with
      | .int i =>
        res.values = some (.single (sortedDedup (x.map (fun r => r.getD i 0))))
          ∧ res.trainY = (x.map (fun r => r.getD i 0)).map (fun v =>
              oneHot (sortedDedup (x.map (fun r => r.getD i 0))).length
                ((sortedDedup (x.map (fun r => r.getD i 0))).indexOf v))
          ∧ (sortedDedup (x.map (fun r => r.getD i 0))).length
              = (x.map (fun r => r.getD i 0)).dedup.length
      | .slice _ _ _ =>
        res.values = some (.multi (get_feature_values_multi (x.map (extractRow af))))
          ∧ res.trainY = floats_to_one_hot (x.map (extractRow af)))
    ∧ res.trainX = (match y with
      | some ys => hcat (hcat (encodedRemaining res.encoder af x)
          (predColumn est scale_range pnf x)) (yBlock est scale_range pnf ys)
      | none => hcat (encodedRemaining res.encoder af x)
          (predColumn est scale_range pnf x)) := by
  constructor
  · have hres := fit_ok_payload est af false scale_range pnf nnf encoder0 x y res hok
    subst hres
    cases af with
    | int i =>
      refine ⟨?_, ?_, List.length_insertionSort _ _⟩
      · simp [fitPayload, attackLabels, get_feature_values_single]
      · simp [fitPayload, attackLabels, float_to_categorical, get_feature_values_single]
    | slice s t st =>
      constructor
      · simp [fitPayload, attackLabels]
      · simp [fitPayload, attackLabels]
  · cases y with
    | none =>
      exact fit_trainX_decomp est af false scale_range pnf nnf encoder0 x none res hok
    | some ys =>
      exact fit_trainX_decomp est af false scale_range pnf nnf encoder0 x (some ys)
        res hok

theorem fit_categorical_labels_witness :
    (((fitPayload estCls1 (.int 0) false none 1 none none [[1, 9], [2, 8], [1, 7]]
        none).values
      = some (.single (sortedDedup (([[1, 9], [2, 8], [1, 7]] : Mat).map
          (fun r => r.getD 0 0)))))
    ∧ (fitPayload estCls1 (.int 0) false none 1 none none [[1, 9], [2, 8], [1, 7]]
        none).trainY
      = (([[1, 9], [2, 8], [1, 7]] : Mat).map (fun r => r.getD 0 0)).map (fun v =>
          oneHot (sortedDedup (([[1, 9], [2, 8], [1, 7]] : Mat).map
            (fun r => r.getD 0 0))).length
            ((sortedDedup (([[1, 9], [2, 8], [1, 7]] : Mat).map
              (fun r => r.getD 0 0))).indexOf v))
    ∧ (sortedDedup (([[1, 9], [2, 8], [1, 7]] : Mat).map (fun r => r.getD 0 0))).length
        = (([[1, 9], [2, 8], [1, 7]] : Mat).map (fun r => r.getD 0 0)).dedup.length)
    ∧ (fitPayload estCls1 (.int 0) false none 1 none none [[1, 9], [2, 8], [1, 7]]
        none).trainX
      = hcat (encodedRemaining (fitPayload estCls1 (.int 0) false none 1 none none
            [[1, 9], [2, 8], [1, 7]] none).encoder (.int 0) [[1, 9], [2, 8], [1, 7]])
          (predColumn estCls1 none 1 [[1, 9], [2, 8], [1, 7]]) :=
  fit_categorical_labels estCls1 (.int 0) none 1 none none [[1, 9], [2, 8], [1, 7]]
    none _ rfl

/-- C4: for a categorical single-column attacked feature with known values
`v`, `infer` returns, for each row, `v[argmax of the attack model's output]`,
and hence every inferred value is an element of `v`. -/
theorem infer_categorical_int (est : Estimator) (i : ℕ)
    (scale_range : Option (ℚ × ℚ)) (pnf : ℚ) (encoder : Option Encoder)
    (fitValues : Option FeatureValues) (amType : AMType) (amp : List ℚ → List ℚ)
    (x : Mat) (y : Option (List ℚ)) (p : Mat) (v : List ℚ)
    (valuesArg : Option FeatureValues)
    (hrows : p.length = x.length)
    (hshape : inferShapeBad est (.int i) x = false)
    (hv : resolveValues fitValues valuesArg = some (.single v))
    (hlen : ∀ r, (amp r).length = v.length)
    (hvne : v ≠ []) :
    infer est (.int i) false scale_range pnf encoder fitValues amType amp x y
        (some p) valuesArg
      = .ok (.vec ((inferFeatures est scale_range pnf encoder x y p).map
          (fun r => v.getD (argmaxIdx (amp r)) 0)))
    ∧ ∀ w ∈ (inferFeatures est scale_range pnf encoder x y p).map
          (fun r => v.getD (argmaxIdx (amp r)) 0), w ∈ v := by
  have hampne : ∀ r, amp r ≠ [] := by
    intro r h
    have := hlen r
    rw [h] at this
    exact hvne (List.eq_nil_of_length_eq_zero this.symm)
  constructor
  · rw [infer_guards_pass est (.int i) false scale_range pnf encoder fitValues amType
      amp x y p valuesArg hrows hshape]
    simp only [inferPayload, hv]
    have hout : (attackOut amType false amp
          (inferFeatures est scale_range pnf encoder x y p)).map
            (fun r => v.getD (argmaxIdx r) 0)
        = (inferFeatures est scale_range pnf encoder x y p).map
            (fun r => v.getD (argmaxIdx (amp r)) 0) := by
      cases amType with
      | nn =>
        rw [attackOut_nn_false, List.map_map]
        apply List.map_congr_left
        intro r _
        show v.getD (argmaxIdx (oneHotArgmax (amp r))) 0 = v.getD (argmaxIdx (amp r)) 0
        rw [argmaxIdx_oneHotArgmax (amp r) (hampne r)]
      | rf => simp only [attackOut, List.map_map]; rfl
      | custom => simp only [attackOut, List.map_map]; rfl
    rw [hout]
    simp
  · intro w hw
    obtain ⟨r, _, hr⟩ := List.mem_map.mp hw
    have harg : argmaxIdx (amp r) < v.length := by
      rw [← hlen r]
      exact argmaxIdx_lt_length (amp r) (hampne r)
    rw [← hr, List.getD_eq_getElem v 0 harg]
    exact List.getElem_mem harg

theorem infer_categorical_int_witness :
    (infer estCls1 (.int 0) false none 1 none (some (.single [10, 20])) .rf ampC
        [[7]] none (some [[0]]) none
      = .ok (.vec ((inferFeatures estCls1 none 1 none [[7]] none [[0]]).map
          (fun r => ([10, 20] : List ℚ).getD (argmaxIdx (ampC r)) 0))))
    ∧ ∀ w ∈ (inferFeatures estCls1 none 1 none [[7]] none [[0]]).map
          (fun r => ([10, 20] : List ℚ).getD (argmaxIdx (ampC r)) 0),
        w ∈ ([10, 20] : List ℚ) :=
  infer_categorical_int estCls1 0 none 1 none (some (.single [10, 20])) .rf ampC
    [[7]] none [[0]] [10, 20] none rfl rfl rfl (fun _ => rfl) (by decide)

theorem infer_pred_checks_witness :
    (infer estCls1 (.int 0) false none 1 none none .rf ampC [[1]] none none none
      = .error "Please provide param `pred` of model predictions.")
    ∧ infer estCls1 (.int 0) false none 1 none none .rf ampC [[1]] none
        (some [[1], [2]]) none
      = .error "Number of rows in x and y do not match" :=
  ⟨(infer_pred_checks estCls1 (.int 0) false none 1 none none .rf ampC [[1]] none none
      [[1], [2]]).1,
    (infer_pred_checks estCls1 (.int 0) false none 1 none none .rf ampC [[1]] none none
      [[1], [2]]).2 (by decide)⟩

end ART
